import Mathlib

/-!
Verification of the evmql core (query parser/validator, TTL cache with
capacity eviction and invalidation, execution engine and range scanner)
against its natural-language specification.  Go strings are modelled as
lists of unicode scalar values (`GoStr`), Go `*big.Int` as `Int`,
Go `map` iteration as list order, and wall-clock time as a `Nat`
timestamp passed explicitly.
-/

namespace EVMQL

abbrev GoStr := List Char

/-- Go `len(s)`: the UTF-8 byte length of a string. -/
def charBytes (c : Char) : Nat :=
  if c.toNat < 0x80 then 1
  else if c.toNat < 0x800 then 2
  else if c.toNat < 0x10000 then 3
  else 4

def goLen (s : GoStr) : Nat := (s.map charBytes).sum

/-- Go `unicode.IsControl`: true exactly on the Latin-1 C0, DEL and C1 ranges. -/
def isGoControl (c : Char) : Bool :=
  c.toNat < 0x20 || c.toNat == 0x7F || (0x80 ≤ c.toNat && c.toNat ≤ 0x9F)

/-- Go `unicode.IsSpace` restricted to the Latin-1 range (the inputs the
claims quantify over); higher script spaces are treated as non-space. -/
def isGoSpace (c : Char) : Bool :=
  c == ' ' || c == '\t' || c == '\n' || c.toNat == 0x0B || c.toNat == 0x0C ||
  c == '\r' || c.toNat == 0x85 || c.toNat == 0xA0

/-- Go `unicode.IsPrint` on the Latin-1 range; scalars above 0xFF are treated
as printable (they are neither control nor Latin-1 space, which is all the
sanitizer distinguishes). -/
def isGoPrint (c : Char) : Bool :=
  (0x20 ≤ c.toNat && c.toNat ≤ 0x7E) ||
  (0xA1 ≤ c.toNat && c.toNat ≤ 0xFF && c.toNat != 0xAD) ||
  c.toNat == 0xA0 ||
  0xFF < c.toNat

/-- Go `strings.ToUpper` on ASCII letters (keywords are ASCII). -/
def toUpperChar (c : Char) : Char :=
  if 'a' ≤ c && c ≤ 'z' then Char.ofNat (c.toNat - 32) else c

def toUpperStr (s : GoStr) : GoStr := s.map toUpperChar

/-- Go `strings.ToLower` on ASCII letters. -/
def toLowerChar (c : Char) : Char :=
  if 'A' ≤ c && c ≤ 'Z' then Char.ofNat (c.toNat + 32) else c

def toLowerStr (s : GoStr) : GoStr := s.map toLowerChar

/-- Go `strings.TrimSpace`. -/
def trimSpace (s : GoStr) : GoStr :=
  ((s.dropWhile isGoSpace).reverse.dropWhile isGoSpace).reverse

/-- The rune loop of `SanitizeInput` (parser/sanitize.go): drop non-space
control runes, remembering that one was seen so the next printable rune gets
a separating space; map every space rune to a single `' '`. -/
def sanitizeLoop : GoStr → Bool → GoStr
  | [], _ => []
  | c :: rest, prevCtl =>
    if isGoControl c && !isGoSpace c then sanitizeLoop rest true
    else if isGoSpace c then ' ' :: sanitizeLoop rest false
    else if isGoPrint c then
      (if prevCtl then [' ', c] else [c]) ++ sanitizeLoop rest false
    else sanitizeLoop rest prevCtl

/-- Source `normalizeWhitespace`: collapse runs of space runes to one `' '`. -/
def normWS : GoStr → Bool → GoStr
  | [], _ => []
  | c :: rest, lastSp =>
    if isGoSpace c then
      (if lastSp then normWS rest true else ' ' :: normWS rest true)
    else c :: normWS rest false

/-- Source `SanitizeInput`: rune filtering, then TrimSpace, then whitespace collapse. -/
def sanitizeInput (s : GoStr) : GoStr :=
  normWS (trimSpace (sanitizeLoop s false)) false

/-- Go `strings.Fields`: split on runs of space runes. -/
def fieldsAux : GoStr → GoStr → List GoStr
  | [], acc => if acc.isEmpty then [] else [acc.reverse]
  | c :: rest, acc =>
    if isGoSpace c then
      (if acc.isEmpty then fieldsAux rest [] else acc.reverse :: fieldsAux rest [])
    else fieldsAux rest (c :: acc)

def fields (s : GoStr) : List GoStr := fieldsAux s []

/-- Base-10 digit run of `big.Int.SetString`, accumulating a value. -/
def digitsAux : GoStr → Nat → Option Nat
  | [], acc => some acc
  | c :: rest, acc =>
    if '0' ≤ c && c ≤ '9' then digitsAux rest (acc * 10 + (c.toNat - 48))
    else none

def digitsToNat : GoStr → Option Nat
  | [] => none
  | s => digitsAux s 0

/-- Go `new(big.Int).SetString(s, 10)`: optional sign, then a nonempty digit
run (underscores are rejected in base 10). -/
def setStringBase10 : GoStr → Option Int
  | '+' :: rest => (digitsToNat rest).map Int.ofNat
  | '-' :: rest => (digitsToNat rest).map (fun n => -(n : Int))
  | s => (digitsToNat s).map Int.ofNat

/-- Source `NormalizeAddress`: trim, lowercase, prepend `0x` if absent. -/
def normalizeAddress (s : GoStr) : GoStr :=
  let t := toLowerStr (trimSpace s)
  if ['0', 'x'].isPrefixOf t then t else '0' :: 'x' :: t

def isHexDigitChar (c : Char) : Bool :=
  ('0' ≤ c && c ≤ '9') || ('a' ≤ c && c ≤ 'f') || ('A' ≤ c && c ≤ 'F')

/-- Source `ValidateAddressFormat`: the anchored pattern `0x` + 40 hex digits. -/
def validateAddressFormat (s : GoStr) : Bool :=
  match s with
  | '0' :: 'x' :: rest => rest.length == 40 && rest.all isHexDigitChar
  | _ => false

/-- Source `common.IsHexAddress`: `0x`/`0X` prefix and 40 hex digits. -/
def isHexAddress (s : GoStr) : Bool :=
  match s with
  | '0' :: 'x' :: rest => rest.length == 40 && rest.all isHexDigitChar
  | '0' :: 'X' :: rest => rest.length == 40 && rest.all isHexDigitChar
  | _ => false

/-- The structured query produced by the parser (queries/query.go); the
address is kept in its canonical `0x` + lowercase-hex form. -/
structure Query where
  type : GoStr
  method : GoStr
  address : GoStr
  fromBlock : Option Int := none
  toBlock : Option Int := none
deriving DecidableEq, Repr

/-- The parse-failure taxonomy, one constructor per distinct error return of
`ParseQuery`. -/
inductive ParseErr where
  | queryEmpty
  | queryTooLong
  | invalidFormat
  | unsupportedMethod
  | invalidAddress
  | missingBlockBound
  | invalidFromBlock
  | invalidToBlock
  | invertedRange
  | rangeTooLarge
deriving DecidableEq, Repr

def validMethod (m : GoStr) : Bool :=
  m == "BALANCE".data || m == "LOGS".data || m == "TRANSACTIONS".data

/-- The optional-BLOCK-clause tail of `ParseQuery` (parts beyond the address):
a fifth token equal to `BLOCK` demands two further tokens, parsed as
non-negative base-10 integers, non-inverted, spanning at most 10000. -/
def parseBlockClause (q : Query) : List GoStr → Except ParseErr Query
  | [] => .ok q
  | p4 :: rest2 =>
    if toUpperStr p4 == "BLOCK".data then
      match rest2 with
      | p5 :: p6 :: _ =>
        match setStringBase10 (trimSpace p5) with
        | none => .error .invalidFromBlock
        | some f =>
          if f < 0 then .error .invalidFromBlock
          else
            match setStringBase10 (trimSpace p6) with
            | none => .error .invalidToBlock
            | some t =>
              if t < 0 then .error .invalidToBlock
              else if t < f then .error .invertedRange
              else if 10000 < t - f then .error .rangeTooLarge
              else .ok { q with fromBlock := some f, toBlock := some t }
      | _ => .error .missingBlockBound
    else .ok q

/-- The body of `ParseQuery` after sanitization: bound the length, tokenize,
check the SELECT/FROM frame, the method, the address, and the optional BLOCK
clause.  Trailing tokens after a complete clause are ignored, as in the
source. -/
def parseSanitized (s : GoStr) : Except ParseErr Query :=
  if goLen s == 0 then .error .queryEmpty
  else if 10000 < goLen s then .error .queryTooLong
  else
    match fields s with
    | p0 :: p1 :: p2 :: p3 :: rest =>
      if !(toUpperStr p0 == "SELECT".data) || !(toUpperStr p2 == "FROM".data) then
        .error .invalidFormat
      else if !validMethod (toUpperStr p1) then .error .unsupportedMethod
      else if !validateAddressFormat (normalizeAddress p3) then .error .invalidAddress
      else if !isHexAddress (normalizeAddress p3) then .error .invalidAddress
      else
        parseBlockClause
          { type := "SELECT".data, method := toUpperStr p1,
            address := normalizeAddress p3 } rest
    | _ => .error .invalidFormat

/-- Source `ParseQuery` (internal/parser/parser.go): sanitize the raw string, then
run the length, format, method, address and block-range checks. -/
def parseQuery (raw : GoStr) : Except ParseErr Query :=
  parseSanitized (sanitizeInput raw)

/-- The character class `\s` of a Go (RE2) regular expression: tab, newline,
form feed, carriage return, space. -/
def regexSpace (c : Char) : Bool :=
  c == '\t' || c == '\n' || c.toNat == 0x0C || c == '\r' || c == ' '

/-- Case-insensitive literal match at the head of a string (the pattern is
given in lowercase), returning the remainder. -/
def ciStrip : GoStr → GoStr → Option GoStr
  | [], s => some s
  | _ :: _, [] => none
  | p :: ps, c :: cs => if toLowerChar c == p then ciStrip ps cs else none

def ciHasPre (p : GoStr) (s : GoStr) : Bool := (ciStrip p s).isSome

/-- Match `union\s+select` at the head of the string. -/
def unionSelectAt (s : GoStr) : Bool :=
  match ciStrip "union".data s with
  | some (c :: rest) =>
    regexSpace c && ciHasPre "select".data (rest.dropWhile regexSpace)
  | _ => false

/-- Match `;\s*` followed by the given keyword at the head of the string. -/
def semiThenAt (w : GoStr) (s : GoStr) : Bool :=
  match s with
  | ';' :: rest => ciHasPre w (rest.dropWhile regexSpace)
  | _ => false

/-- Match the given keyword, `\s*`, then `(` at the head of the string. -/
def wordParenAt (w : GoStr) (s : GoStr) : Bool :=
  match ciStrip w s with
  | some rest =>
    match rest.dropWhile regexSpace with
    | '(' :: _ => true
    | _ => false
  | none => false

/-- One alternative of the `dangerousPatterns` regular expression matching at
the head of the string. -/
def dangerousAt (s : GoStr) : Bool :=
  unionSelectAt s || semiThenAt "drop".data s || semiThenAt "insert".data s ||
  semiThenAt "update".data s || semiThenAt "delete".data s ||
  semiThenAt "create".data s || semiThenAt "alter".data s ||
  wordParenAt "exec".data s || ciHasPre "<script".data s ||
  ciHasPre "javascript:".data s || wordParenAt "eval".data s

def containsDangerous : GoStr → Bool
  | [] => false
  | c :: rest => dangerousAt (c :: rest) || containsDangerous rest

/-- Source `ValidateNoSQLInjection` (parser/sanitize.go): true iff no dangerous
pattern occurs anywhere in the input. -/
def validateNoSQLInjection (s : GoStr) : Bool := !containsDangerous s

/-- One cached entry: an opaque value plus its absolute expiration time
(cache.go `cacheItem`); time is a `Nat` timestamp. -/
structure CacheItem (α : Type) where
  value : α
  expiration : Nat
deriving DecidableEq, Repr

/-- The in-memory TTL cache (cache.go `InMemoryCache`).  The Go entry map is
modelled as an association list; Go map iteration order (unspecified) is
modelled as list order.  The background sweep goroutine and the lock are
real-time/concurrency artefacts outside the shallow embedding; every
foreground operation is modelled at its linearization point. -/
structure MemCache (α : Type) where
  items : List (GoStr × CacheItem α)
  maxItems : Nat
  defaultTTL : Nat
deriving DecidableEq, Repr

/-- Go map lookup on the association list. -/
def lookupKey (k : GoStr) : List (GoStr × CacheItem α) → Option (CacheItem α)
  | [] => none
  | (k2, it) :: rest => if k2 = k then some it else lookupKey k rest

/-- Go `delete(map, k)`: remove the (unique) binding of `k`, if any. -/
def removeKey (k : GoStr) : List (GoStr × CacheItem α) → List (GoStr × CacheItem α)
  | [] => []
  | (k2, it) :: rest => if k2 = k then rest else (k2, it) :: removeKey k rest

/-- Go `map[k] = it`: replace the binding of `k`, or add one. -/
def insertItem (k : GoStr) (it : CacheItem α) :
    List (GoStr × CacheItem α) → List (GoStr × CacheItem α)
  | [] => [(k, it)]
  | (k2, it2) :: rest =>
    if k2 = k then (k, it) :: rest else (k2, it2) :: insertItem k it rest

/-- Source `Get`: lookup, reporting not-found for entries whose expiration lies
strictly in the past (`time.Now().After(item.expiration)`). -/
def MemCache.get (c : MemCache α) (now : Nat) (k : GoStr) : Option α :=
  match lookupKey k c.items with
  | none => none
  | some it => if it.expiration < now then none else some it.value

/-- One step of the `evictOldest` scan: adopt the entry if no candidate has
been chosen yet (sentinel: empty key) or it expires strictly earlier. -/
def evictStep (acc : GoStr × Nat) (e : GoStr × CacheItem α) : GoStr × Nat :=
  if acc.1 = [] ∨ e.2.expiration < acc.2 then (e.1, e.2.expiration) else acc

/-- The key (with its expiration) selected by the `evictOldest` scan. -/
def evictChoice (items : List (GoStr × CacheItem α)) : GoStr × Nat :=
  items.foldl evictStep ([], 0)

/-- Source `evictOldest`: delete the selected key, unless the sentinel says no
candidate was found. -/
def evictOldest (items : List (GoStr × CacheItem α)) : List (GoStr × CacheItem α) :=
  if (evictChoice items).1 ≠ [] then removeKey (evictChoice items).1 items else items

/-- Source `Set`: substitute the default TTL for `ttl == 0`, evict one entry if the
map is at or above `maxItems`, then insert with expiration `now + ttl`. -/
def MemCache.set (c : MemCache α) (now : Nat) (k : GoStr) (v : α) (ttl : Nat) :
    MemCache α :=
  { c with items := insertItem k ⟨v, now + (if ttl = 0 then c.defaultTTL else ttl)⟩ (if c.maxItems ≤ c.items.length then evictOldest c.items else c.items) }

/-- Source `Delete`. -/
def MemCache.delete (c : MemCache α) (k : GoStr) : MemCache α :=
  { c with items := removeKey k c.items }

/-- Source `Size`. -/
def MemCache.size (c : MemCache α) : Nat := c.items.length

/-- Source `Keys`. -/
def MemCache.keys (c : MemCache α) : List GoStr := c.items.map Prod.fst

/-- Source `Clear`. -/
def MemCache.clear (c : MemCache α) : MemCache α := { c with items := [] }

/-- Source function: invalidation.go `InvalidateByPre`+`fix` (the Go name
cannot appear as a Lean identifier here): snapshot `Keys()`, then delete
every key starting with the given pattern, counting deletions. -/
def invalidateByKeyStart (c : MemCache α) (p : GoStr) : MemCache α × Nat :=
  c.keys.foldl
    (fun acc k => if p.isPrefixOf k then (acc.1.delete k, acc.2 + 1) else acc)
    (c, 0)

/-- Source `InvalidateByAddress`: the three per-method bulk deletions, on the shared
cache in order, with their counts summed. -/
def invalidateByAddress (c : MemCache α) (address : GoStr) : MemCache α × Nat :=
  let r1 := invalidateByKeyStart c ("balance:".data ++ address)
  let r2 := invalidateByKeyStart r1.1 ("logs:".data ++ address)
  let r3 := invalidateByKeyStart r2.1 ("transactions:".data ++ address)
  (r3.1, r1.2 + r2.2 + r3.2)

/-! SHA-256 over byte lists, as used by `GenerateKey` via `crypto/sha256`;
32-bit words are `Nat` reduced mod `2^32`. -/

def rotr32 (n x : Nat) : Nat := (x / 2 ^ n + x % 2 ^ n * 2 ^ (32 - n)) % 2 ^ 32

def shr32 (n x : Nat) : Nat := x / 2 ^ n

def xor3 (a b c : Nat) : Nat := Nat.xor (Nat.xor a b) c

def not32 (x : Nat) : Nat := 2 ^ 32 - 1 - x % 2 ^ 32

def add32 (a b : Nat) : Nat := (a + b) % 2 ^ 32

/-- The eight working words of the SHA-256 state. -/
structure Hash8 where
  a : Nat
  b : Nat
  c : Nat
  d : Nat
  e : Nat
  f : Nat
  g : Nat
  h : Nat
deriving DecidableEq, Repr

def sha256K : List Nat :=
  [1116352408, 1899447441, 3049323471, 3921009573, 961987163, 1508970993,
   2453635748, 2870763221, 3624381080, 310598401, 607225278, 1426881987,
   1925078388, 2162078206, 2614888103, 3248222580, 3835390401, 4022224774,
   264347078, 604807628, 770255983, 1249150122, 1555081692, 1996064986,
   2554220882, 2821834349, 2952996808, 3210313671, 3336571891, 3584528711,
   113926993, 338241895, 666307205, 773529912, 1294757372, 1396182291,
   1695183700, 1986661051, 2177026350, 2456956037, 2730485921, 2820302411,
   3259730800, 3345764771, 3516065817, 3600352804, 4094571909, 275423344,
   430227734, 506948616, 659060556, 883997877, 958139571, 1322822218,
   1537002063, 1747873779, 1955562222, 2024104815, 2227730452, 2361852424,
   2428436474, 2756734187, 3204031479, 3329325298]

def sha256Init : Hash8 :=
  ⟨1779033703, 3144134277, 1013904242, 2773480762,
   1359893119, 2600822924, 528734635, 1541459225⟩

/-- Merkle–Damgård padding: `0x80`, zeros to 56 mod 64, then the bit length
as eight big-endian bytes. -/
def padMessage (msg : List Nat) : List Nat :=
  msg ++ 0x80 :: List.replicate ((64 + 55 - msg.length % 64) % 64) 0 ++
    [8 * msg.length / 2 ^ 56 % 256, 8 * msg.length / 2 ^ 48 % 256,
     8 * msg.length / 2 ^ 40 % 256, 8 * msg.length / 2 ^ 32 % 256,
     8 * msg.length / 2 ^ 24 % 256, 8 * msg.length / 2 ^ 16 % 256,
     8 * msg.length / 2 ^ 8 % 256, 8 * msg.length % 256]

def bytesToWord (b0 b1 b2 b3 : Nat) : Nat :=
  b0 * 2 ^ 24 + b1 * 2 ^ 16 + b2 * 2 ^ 8 + b3

/-- The sixteen big-endian message words of one 64-byte chunk. -/
def chunkWords (chunk : List Nat) : List Nat :=
  (List.range 16).map fun i =>
    bytesToWord (chunk.getD (4 * i) 0) (chunk.getD (4 * i + 1) 0)
      (chunk.getD (4 * i + 2) 0) (chunk.getD (4 * i + 3) 0)

/-- Extend sixteen message words to the 64-entry schedule. -/
def extendWords (ws0 : List Nat) : List Nat :=
  (List.range 48).foldl
    (fun ws j =>
      let x := ws.getD (j + 1) 0
      let y := ws.getD (j + 14) 0
      let s0 := xor3 (rotr32 7 x) (rotr32 18 x) (shr32 3 x)
      let s1 := xor3 (rotr32 17 y) (rotr32 19 y) (shr32 10 y)
      ws ++ [(ws.getD j 0 + s0 + ws.getD (j + 9) 0 + s1) % 2 ^ 32])
    ws0

/-- The 64-round compression of one chunk, added to the incoming state. -/
def compressChunk (hs : Hash8) (chunk : List Nat) : Hash8 :=
  let ws := extendWords (chunkWords chunk)
  let r :=
    (List.range 64).foldl
      (fun (st : Hash8) i =>
        let s1 := xor3 (rotr32 6 st.e) (rotr32 11 st.e) (rotr32 25 st.e)
        let ch := Nat.xor (Nat.land st.e st.f) (Nat.land (not32 st.e) st.g)
        let temp1 := (st.h + s1 + ch + sha256K.getD i 0 + ws.getD i 0) % 2 ^ 32
        let s0 := xor3 (rotr32 2 st.a) (rotr32 13 st.a) (rotr32 22 st.a)
        let maj := xor3 (Nat.land st.a st.b) (Nat.land st.a st.c) (Nat.land st.b st.c)
        ⟨(temp1 + (s0 + maj) % 2 ^ 32) % 2 ^ 32, st.a, st.b, st.c,
         (st.d + temp1) % 2 ^ 32, st.e, st.f, st.g⟩)
      hs
  ⟨add32 hs.a r.a, add32 hs.b r.b, add32 hs.c r.c, add32 hs.d r.d,
   add32 hs.e r.e, add32 hs.f r.f, add32 hs.g r.g, add32 hs.h r.h⟩

/-- SHA-256 of a byte list, as the eight final state words. -/
def sha256Words (msg : List Nat) : Hash8 :=
  (List.range ((padMessage msg).length / 64)).foldl
    (fun hs i => compressChunk hs (((padMessage msg).drop (64 * i)).take 64))
    sha256Init

def wordBytes (w : Nat) : List Nat :=
  [w / 2 ^ 24 % 256, w / 2 ^ 16 % 256, w / 2 ^ 8 % 256, w % 256]

/-- The 32 digest bytes, big-endian per word. -/
def digestBytes (hs : Hash8) : List Nat :=
  wordBytes hs.a ++ wordBytes hs.b ++ wordBytes hs.c ++ wordBytes hs.d ++
  wordBytes hs.e ++ wordBytes hs.f ++ wordBytes hs.g ++ wordBytes hs.h

def hexDigit (n : Nat) : Char := "0123456789abcdef".data.getD n '0'

/-- Source `hex.EncodeToString`: two lowercase hex digits per byte, high nibble
first. -/
def hexChars : List Nat → GoStr
  | [] => []
  | b :: rest => hexDigit (b / 16) :: hexDigit (b % 16) :: hexChars rest

/-- The `interface{}` parameter values `GenerateKey` receives from the
executor: strings, `*big.Int` numbers, and nil. -/
inductive JVal where
  | str (s : GoStr)
  | num (n : Int)
  | null
deriving DecidableEq, Repr

def natDigitsAux : Nat → Nat → GoStr
  | 0, _ => []
  | fuel + 1, n =>
    if n < 10 then [Char.ofNat (48 + n)]
    else natDigitsAux fuel (n / 10) ++ [Char.ofNat (48 + n % 10)]

def natToChars (n : Nat) : GoStr := natDigitsAux (n + 1) n

def intToChars : Int → GoStr
  | .ofNat n => natToChars n
  | .negSucc n => '-' :: natToChars (n + 1)

/-- Source `encoding/json` rendering of one parameter (none of the executor's
string parameters require escaping). -/
def jvalChars : JVal → GoStr
  | .str s => '"' :: (s ++ ['"'])
  | .num n => intToChars n
  | .null => "null".data

/-- Source `json.Marshal` of the parameter slice: a JSON array. -/
def jsonEncode (ps : List JVal) : GoStr :=
  '[' :: (((ps.map jvalChars).intersperse [',']).flatten ++ [']'])

def strBytes (s : GoStr) : List Nat := s.map Char.toNat

/-- Source `GenerateKey` (cache.go): `prefix + ":" + hex(sha256(json(params)))`. -/
def generateKey (p : GoStr) (ps : List JVal) : GoStr :=
  p ++ ':' :: hexChars (digestBytes (sha256Words (strBytes (jsonEncode ps))))

/-! Execution engine (internal/executor/executor.go).  The chain-access
collaborator is an oracle record; each operation either succeeds or fails
with an error string.  The cancellable context is modelled as never
cancelled (cancellation is real-time behaviour outside the claims settled
here).  `common.Address.Hex()` is a case-variant rendering of the 20-byte
address, injective on addresses and treated opaquely by the executor; it is
modelled by the canonical address string itself. -/

/-- Log records are opaque to the engine. -/
abbrev LogRec := Nat

/-- One transaction: `sender = none` models a `TransactionToMessage`
decoding failure, which makes the scanner skip the transaction. -/
structure Tx where
  sender : Option GoStr
  toAddr : Option GoStr
  payload : Nat
deriving DecidableEq, Repr

/-- The scanner's per-transaction test:
`(tx.To() != nil && *tx.To() == addr) || msg.From == addr`, with the
transaction skipped when decoding fails. -/
def txMatches (addr : GoStr) (tx : Tx) : Bool :=
  match tx.sender with
  | none => false
  | some s => tx.toAddr == some addr || s == addr

/-- The chain-access collaborator's operations used by the engine. -/
structure Chain where
  blockNumberRes : Except GoStr Nat
  latestByNil : Except GoStr Int
  blockByNumber : Int → Except GoStr (List Tx)
  filterLogs : GoStr → Int → Int → Except GoStr (List LogRec)

/-- The execution-error taxonomy raised by the engine and scanner
(`Cancelled` is unreachable in the never-cancelled context model). -/
inductive ExecErr where
  | missingRange
  | rangeTooLarge
  | resultTooLarge
  | upstream (detail : GoStr)
deriving DecidableEq, Repr

/-- Cached values (Go `interface{}`), discriminated by the type assertions
the executor performs on cache hits. -/
inductive CVal where
  | logs (l : List LogRec)
  | txs (l : List Tx)
  | bal (b : Int)
deriving DecidableEq, Repr

/-- The balance cache key:
`GenerateKey("balance", query.Address.Hex(), blockNumber)` with a possibly
nil block pointer. -/
def balanceKey (addrHex : GoStr) (blockNumber : Option Int) : GoStr :=
  generateKey "balance".data
    [.str addrHex, match blockNumber with | none => .null | some n => .num n]

/-- The logs cache key:
`GenerateKey("logs", query.Address.Hex(), query.FromBlock, query.ToBlock)`. -/
def logsKey (addrHex : GoStr) (f t : Int) : GoStr :=
  generateKey "logs".data [.str addrHex, .num f, .num t]

/-- The transactions cache key:
`GenerateKey("transactions", query.Address.Hex(), fromBlock, toBlock)`. -/
def txKey (addrHex : GoStr) (f t : Int) : GoStr :=
  generateKey "transactions".data [.str addrHex, .num f, .num t]

/-- Source `getLogs`: require both bounds, re-check the 10000-block cap, consult
the cache, fetch, enforce the 10000-record result cap (not caching an
oversized result), then cache and return.  The cache is threaded
explicitly. -/
def getLogs (ch : Chain) (c : MemCache CVal) (now : Nat) (q : Query) :
    Except ExecErr (List LogRec) × MemCache CVal :=
  match q.fromBlock, q.toBlock with
  | some f, some t =>
    if 10000 < t - f then (.error .rangeTooLarge, c)
    else
      match c.get now (logsKey q.address f t) with
      | some (.logs l) => (.ok l, c)
      | _ =>
        match ch.filterLogs q.address f t with
        | .error e => (.error (.upstream e), c)
        | .ok logs =>
          if 10000 < logs.length then (.error .resultTooLarge, c)
          else (.ok logs, c.set now (logsKey q.address f t) (.logs logs) 0)
  | _, _ => (.error .missingRange, c)

/-- The per-transaction loop of the sequential scanner: append each matching
transaction, failing with `ResultTooLarge` as soon as the accumulated count
reaches 10000 (the source checks `len >= 10000` after the append). -/
def seqScanTxs (addr : GoStr) : List Tx → List Tx → Except ExecErr (List Tx)
  | [], acc => .ok acc
  | tx :: rest, acc =>
    if txMatches addr tx then
      if 10000 ≤ (acc ++ [tx]).length then .error .resultTooLarge
      else seqScanTxs addr rest (acc ++ [tx])
    else seqScanTxs addr rest acc

/-- The per-block loop of the sequential scanner, aborting on the first
failed block fetch. -/
def seqScanBlocks (ch : Chain) (addr : GoStr) :
    List Int → List Tx → Except ExecErr (List Tx)
  | [], acc => .ok acc
  | b :: rest, acc =>
    match ch.blockByNumber b with
    | .error e => .error (.upstream e)
    | .ok txs =>
      match seqScanTxs addr txs acc with
      | .error e => .error e
      | .ok acc2 => seqScanBlocks ch addr rest acc2

/-- The block numbers `fromBlock, fromBlock+1, ..., toBlock`. -/
def intRange (f t : Int) : List Int :=
  (List.range (t - f + 1).toNat).map fun i => f + (i : Int)

/-- Source `getTransactions` (the sequential scanner): resolve absent bounds to the
latest block, enforce the 1000-block cap, then scan in increasing block
order. -/
def getTransactions (ch : Chain) (q : Query) : Except ExecErr (List Tx) :=
  match
    (match q.fromBlock with
     | none => ch.latestByNil.map fun l => (l, l)
     | some f => .ok (f, q.toBlock.getD f)) with
  | .error e => .error (.upstream e)
  | .ok (f, t) =>
    if 1000 < t - f then .error .rangeTooLarge
    else seqScanBlocks ch q.address (intRange f t) []

/-- The collector of the concurrent scanner, consuming per-block results in
arrival order: abort on the first per-block error, concatenate the per-block
matching sublists, and fail with `ResultTooLarge` once the running total
exceeds 10000. -/
def concCollect (ch : Chain) (addr : GoStr) :
    List Int → List Tx → Except ExecErr (List Tx)
  | [], acc => .ok acc
  | b :: rest, acc =>
    match ch.blockByNumber b with
    | .error e => .error (.upstream e)
    | .ok txs =>
      if 10000 < (acc ++ txs.filter (txMatches addr)).length then
        .error .resultTooLarge
      else concCollect ch addr rest (acc ++ txs.filter (txMatches addr))

/-- Outcome of the concurrent path: a result, a taxonomy error, or a crash
of the process (a nil `*big.Int` dereference panicking a goroutine). -/
inductive ScanOutcome (α : Type) where
  | ok (val : α)
  | err (e : ExecErr)
  | crash
deriving DecidableEq, Repr

/-- Reinterpret a `uint64` value as Go `int64` (the source computes
`big.NewInt(int64(latestBlock - 100))` on unsigned arithmetic). -/
def int64OfUInt64 (n : Nat) : Int :=
  if n < 2 ^ 63 then (n : Int) else (n : Int) - 2 ^ 64

/-- Source `getTransactionsConcurrent`: resolve absent bounds into the local
variables `fromBlock := head - 100, toBlock := head`, validate the
1000-block cap, consult the cache, then scan.  The feeder goroutine,
however, iterates `query.FromBlock .. query.ToBlock` — the original,
possibly nil pointers — so when either bound was absent it dereferences nil
and panics, modelled by `ScanOutcome.crash`.  `order` is the arrival order
of per-block results at the collector; theorems constrain it to a
permutation of the fed block range. -/
def getTransactionsConcurrent (ch : Chain) (c : MemCache CVal) (now : Nat)
    (q : Query) (order : List Int) : ScanOutcome (List Tx) × MemCache CVal :=
  match
    (match q.fromBlock, q.toBlock with
     | some f, some t => Except.ok (f, t)
     | _, _ =>
       match ch.blockNumberRes with
       | .error e => .error e
       | .ok latest =>
         .ok (int64OfUInt64 ((latest + 2 ^ 64 - 100) % 2 ^ 64),
              int64OfUInt64 (latest % 2 ^ 64))) with
  | .error e => (.err (.upstream e), c)
  | .ok (fromB, toB) =>
    if 1000 < toB - fromB then (.err .rangeTooLarge, c)
    else
      match c.get now (txKey q.address fromB toB) with
      | some (.txs l) => (.ok l, c)
      | _ =>
        match q.fromBlock, q.toBlock with
        | some _, some _ =>
          match concCollect ch q.address order [] with
          | .error e => (.err e, c)
          | .ok txs =>
            (.ok txs, c.set now (txKey q.address fromB toB) (.txs txs) 0)
        | _, _ => (.crash, c)

deriving instance DecidableEq for Except

/-! ### Helper lemmas -/

theorem charBytes_pos (c : Char) : 0 < charBytes c := by
  unfold charBytes; split <;> [omega; split <;> [omega; split <;> omega]]

theorem goLen_pos {s : GoStr} (h : s ≠ []) : 0 < goLen s := by
  cases s with
  | nil => exact absurd rfl h
  | cons c r =>
    have := charBytes_pos c
    simp [goLen]
    omega

theorem parseBlockClause_ok_bounds (q : Query) (rest : List GoStr) (q' : Query)
    (h : parseBlockClause q rest = .ok q') :
    (q'.fromBlock = q.fromBlock ∧ q'.toBlock = q.toBlock) ∨
    (∃ f t, q'.fromBlock = some f ∧ q'.toBlock = some t ∧ f ≤ t ∧ t - f ≤ 10000) := by
  cases rest with
  | nil =>
    simp only [parseBlockClause] at h
    cases h
    exact Or.inl ⟨rfl, rfl⟩
  | cons p4 rest2 =>
    simp only [parseBlockClause] at h
    split at h
    · match rest2, h with
      | [], h => exact absurd h (by simp)
      | [p5], h => exact absurd h (by simp)
      | p5 :: p6 :: tail, h =>
        simp only at h
        rcases hf : setStringBase10 (trimSpace p5) with _ | f <;> rw [hf] at h
        · exact absurd h (by simp)
        · simp only at h
          split at h
          · exact absurd h (by simp)
          · rcases ht : setStringBase10 (trimSpace p6) with _ | t <;> rw [ht] at h
            · exact absurd h (by simp)
            · simp only at h
              split at h
              · exact absurd h (by simp)
              · split at h
                · exact absurd h (by simp)
                · split at h
                  · exact absurd h (by simp)
                  · cases h
                    exact Or.inr ⟨f, t, rfl, rfl, by omega, by omega⟩
    · cases h
      exact Or.inl ⟨rfl, rfl⟩

theorem parseQuery_ok_ordered (raw : GoStr) (q : Query)
    (h : parseQuery raw = .ok q) :
    ∀ f t, q.fromBlock = some f → q.toBlock = some t → f ≤ t := by
  intro f t hf ht
  unfold parseQuery parseSanitized at h
  split at h
  · exact absurd h (by simp)
  · split at h
    · exact absurd h (by simp)
    · split at h
      · split at h
        · exact absurd h (by simp)
        · split at h
          · exact absurd h (by simp)
          · split at h
            · exact absurd h (by simp)
            · split at h
              · exact absurd h (by simp)
              · rcases parseBlockClause_ok_bounds _ _ _ h with ⟨h1, _⟩ | ⟨f', t', h1, h2, h3, _⟩
                · rw [hf] at h1; exact absurd h1 (by simp)
                · rw [hf] at h1; rw [ht] at h2
                  injection h1 with e1; injection h2 with e2
                  omega
      · exact absurd h (by simp)

theorem parseQuery_eq_blockClause (raw : GoStr) (p0 p1 p2 p3 : GoStr)
    (rest : List GoStr)
    (hfields : fields (sanitizeInput raw) = p0 :: p1 :: p2 :: p3 :: rest)
    (hlen : goLen (sanitizeInput raw) ≤ 10000)
    (h0 : toUpperStr p0 = "SELECT".data) (h2 : toUpperStr p2 = "FROM".data)
    (hm : validMethod (toUpperStr p1) = true)
    (ha1 : validateAddressFormat (normalizeAddress p3) = true)
    (ha2 : isHexAddress (normalizeAddress p3) = true) :
    parseQuery raw =
      parseBlockClause
        { type := "SELECT".data, method := toUpperStr p1,
          address := normalizeAddress p3 } rest := by
  have hne : fields (sanitizeInput raw) ≠ [] := by rw [hfields]; simp
  have hs : sanitizeInput raw ≠ [] := fun e => hne (by rw [e]; rfl)
  have hpos := goLen_pos hs
  have h00 : goLen (sanitizeInput raw) ≠ 0 := by omega
  have hlt : ¬ (10000 < goLen (sanitizeInput raw)) := by omega
  unfold parseQuery parseSanitized
  rw [hfields]
  simp [h00, hlt, h0, h2, hm, ha1, ha2]

/-! ### Claim theorems -/

/-- Claim C1 (code bug): the spec requires `parse` to reject inputs
containing a known injection pattern with `InjectionRejected`, but
`ParseQuery` never invokes `ValidateNoSQLInjection`: an input containing
`UNION SELECT` — which the validator itself flags — parses successfully
into a BALANCE query, the trailing injection tokens being silently
ignored. -/
theorem c1_parse_accepts_injection_input :
    validateNoSQLInjection
      "SELECT BALANCE FROM 0x742d35cc6634c0532925a3b844bc454e4438f44e UNION SELECT password".data
      = false ∧
    parseQuery
      "SELECT BALANCE FROM 0x742d35cc6634c0532925a3b844bc454e4438f44e UNION SELECT password".data
      = .ok { type := "SELECT".data, method := "BALANCE".data,
              address := "0x742d35cc6634c0532925a3b844bc454e4438f44e".data,
              fromBlock := none, toBlock := none } :=
  ⟨rfl, rfl⟩

/-- Claim C5 (confirmed): for a syntactically well-formed query whose BLOCK
clause carries non-negative, non-inverted bounds (well-formedness stated via
the code's own tokenizer), parsing succeeds — with both bounds stored —
exactly when the span `toBlock - fromBlock` does not exceed the hard cap of
10000, and fails with `RangeTooLarge` when it exceeds it.  The span
convention is the spec's own (`BLOCK 1000000 1010000` is the maximal valid
LOGS range). -/
theorem c5_parse_range_cap_boundary (raw : GoStr)
    (p0 p1 p2 p3 p4 p5 p6 : GoStr) (rest : List GoStr) (f t : Int)
    (hfields : fields (sanitizeInput raw) =
      p0 :: p1 :: p2 :: p3 :: p4 :: p5 :: p6 :: rest)
    (hlen : goLen (sanitizeInput raw) ≤ 10000)
    (h0 : toUpperStr p0 = "SELECT".data) (h2 : toUpperStr p2 = "FROM".data)
    (hm : validMethod (toUpperStr p1) = true)
    (ha1 : validateAddressFormat (normalizeAddress p3) = true)
    (ha2 : isHexAddress (normalizeAddress p3) = true)
    (h4 : toUpperStr p4 = "BLOCK".data)
    (h5 : setStringBase10 (trimSpace p5) = some f) (hf0 : 0 ≤ f)
    (h6 : setStringBase10 (trimSpace p6) = some t) (hft : f ≤ t) :
    (t - f ≤ 10000 →
      parseQuery raw = .ok { type := "SELECT".data, method := toUpperStr p1,
                             address := normalizeAddress p3,
                             fromBlock := some f, toBlock := some t }) ∧
    (10000 < t - f → parseQuery raw = .error .rangeTooLarge) := by
  rw [parseQuery_eq_blockClause raw p0 p1 p2 p3 (p4 :: p5 :: p6 :: rest)
    hfields hlen h0 h2 hm ha1 ha2]
  have hnf : ¬ (f < 0) := by omega
  have hnt : ¬ (t < 0) := by omega
  have hni : ¬ (t < f) := by omega
  constructor
  · intro hcap
    have hnc : ¬ (10000 < t - f) := by omega
    simp [parseBlockClause, h4, h5, h6, hnf, hnt, hni, hnc]
  · intro hcap
    simp [parseBlockClause, h4, h5, h6, hnf, hnt, hni, hcap]

/-- Witness for C5 at the spec's boundary: a LOGS query spanning exactly
10000 blocks parses, and one spanning 10001 fails with `RangeTooLarge`. -/
theorem c5_parse_range_cap_boundary_witness :
    parseQuery "SELECT LOGS FROM 0x742d35cc6634c0532925a3b844bc454e4438f44e BLOCK 1000000 1010000".data =
      .ok { type := "SELECT".data, method := "LOGS".data,
            address := "0x742d35cc6634c0532925a3b844bc454e4438f44e".data,
            fromBlock := some 1000000, toBlock := some 1010000 } ∧
    parseQuery "SELECT LOGS FROM 0x742d35cc6634c0532925a3b844bc454e4438f44e BLOCK 1000000 1010001".data =
      .error .rangeTooLarge := by
  constructor
  · exact (c5_parse_range_cap_boundary
      "SELECT LOGS FROM 0x742d35cc6634c0532925a3b844bc454e4438f44e BLOCK 1000000 1010000".data
      "SELECT".data "LOGS".data "FROM".data
      "0x742d35cc6634c0532925a3b844bc454e4438f44e".data "BLOCK".data
      "1000000".data "1010000".data [] 1000000 1010000 rfl (by decide) rfl rfl
      (by decide) (by decide) (by decide) rfl rfl (by decide) rfl (by decide)).1
      (by decide)
  · exact (c5_parse_range_cap_boundary
      "SELECT LOGS FROM 0x742d35cc6634c0532925a3b844bc454e4438f44e BLOCK 1000000 1010001".data
      "SELECT".data "LOGS".data "FROM".data
      "0x742d35cc6634c0532925a3b844bc454e4438f44e".data "BLOCK".data
      "1000000".data "1010001".data [] 1000000 1010001 rfl (by decide) rfl rfl
      (by decide) (by decide) (by decide) rfl rfl (by decide) rfl (by decide)).2
      (by decide)

/-- Claim C6 (confirmed): (1) for every input string, a successful parse
with both bounds present satisfies `fromBlock <= toBlock`; (2) an otherwise
valid query whose BLOCK clause carries valid non-negative bounds with
`fromBlock > toBlock` always fails with `InvertedRange` (so no Query is
produced). -/
theorem c6_post_parse_bounds_ordered :
    (∀ (raw : GoStr) (q : Query), parseQuery raw = .ok q →
      ∀ f t, q.fromBlock = some f → q.toBlock = some t → f ≤ t) ∧
    (∀ (raw : GoStr) (p0 p1 p2 p3 p4 p5 p6 : GoStr) (rest : List GoStr)
      (f t : Int),
      fields (sanitizeInput raw) =
        p0 :: p1 :: p2 :: p3 :: p4 :: p5 :: p6 :: rest →
      goLen (sanitizeInput raw) ≤ 10000 →
      toUpperStr p0 = "SELECT".data → toUpperStr p2 = "FROM".data →
      validMethod (toUpperStr p1) = true →
      validateAddressFormat (normalizeAddress p3) = true →
      isHexAddress (normalizeAddress p3) = true →
      toUpperStr p4 = "BLOCK".data →
      setStringBase10 (trimSpace p5) = some f → 0 ≤ f →
      setStringBase10 (trimSpace p6) = some t → 0 ≤ t →
      t < f →
      parseQuery raw = .error .invertedRange) := by
  constructor
  · exact parseQuery_ok_ordered
  · intro raw p0 p1 p2 p3 p4 p5 p6 rest f t hfields hlen h0 h2 hm ha1 ha2 h4
      h5 hf0 h6 ht0 hinv
    rw [parseQuery_eq_blockClause raw p0 p1 p2 p3 (p4 :: p5 :: p6 :: rest)
      hfields hlen h0 h2 hm ha1 ha2]
    have hnf : ¬ (f < 0) := by omega
    have hnt : ¬ (t < 0) := by omega
    simp [parseBlockClause, h4, h5, h6, hnf, hnt, hinv]

/-- Witness for C6: the spec's inverted-range scenario fails with
`InvertedRange`. -/
theorem c6_post_parse_bounds_ordered_witness :
    parseQuery "SELECT LOGS FROM 0x742d35cc6634c0532925a3b844bc454e4438f44e BLOCK 2000000 1000000".data =
      .error .invertedRange :=
  c6_post_parse_bounds_ordered.2
    "SELECT LOGS FROM 0x742d35cc6634c0532925a3b844bc454e4438f44e BLOCK 2000000 1000000".data
    "SELECT".data "LOGS".data "FROM".data
    "0x742d35cc6634c0532925a3b844bc454e4438f44e".data "BLOCK".data
    "2000000".data "1000000".data [] 2000000 1000000 rfl (by decide) rfl rfl
    (by decide) (by decide) (by decide) rfl rfl (by decide) rfl (by decide)
    (by decide)

/-! ### Cache helper lemmas -/

theorem removeKey_length_mem {α} (k : GoStr) (l : List (GoStr × CacheItem α))
    (h : k ∈ l.map Prod.fst) : (removeKey k l).length + 1 = l.length := by
  induction l with
  | nil => simp at h
  | cons e rest ih =>
    simp only [List.map_cons, List.mem_cons] at h
    by_cases he : e.1 = k
    · simp [removeKey, he]
    · rcases h with h | h
      · exact absurd h.symm he
      · simp only [removeKey, he, if_false]
        simp only [List.length_cons]
        rw [← ih h]

theorem insertItem_length {α} (k : GoStr) (it : CacheItem α)
    (l : List (GoStr × CacheItem α)) :
    (insertItem k it l).length =
      if k ∈ l.map Prod.fst then l.length else l.length + 1 := by
  induction l with
  | nil => simp [insertItem]
  | cons e rest ih =>
    obtain ⟨k2, it2⟩ := e
    by_cases he : k2 = k
    · subst he
      simp only [insertItem, if_pos rfl, List.length_cons, List.map_cons,
        List.mem_cons, true_or, if_true, eq_self_iff_true]
    · simp only [insertItem, he, if_false, List.length_cons, List.map_cons,
        List.mem_cons, ih]
      by_cases hm : k ∈ rest.map Prod.fst
      · rw [if_pos hm, if_pos (Or.inr hm)]
      · rw [if_neg hm, if_neg (by rintro (h | h); exact he h.symm; exact hm h)]

theorem evictFold_spec {α} (l : List (GoStr × CacheItem α)) :
    ∀ (acc : GoStr × Nat), acc.1 ≠ [] → (∀ e ∈ l, e.1 ≠ ([] : GoStr)) →
      ((l.foldl evictStep acc = acc ∨
        ∃ e ∈ l, l.foldl evictStep acc = (e.1, e.2.expiration)) ∧
       (l.foldl evictStep acc).2 ≤ acc.2 ∧
       ∀ e ∈ l, (l.foldl evictStep acc).2 ≤ e.2.expiration) := by
  induction l with
  | nil =>
    intro acc ha _
    exact ⟨Or.inl rfl, le_refl _, fun e he => absurd he (List.not_mem_nil e)⟩
  | cons e rest ih =>
    intro acc ha hk
    have hke : e.1 ≠ ([] : GoStr) := hk e (List.mem_cons_self e rest)
    have hkr : ∀ e2 ∈ rest, e2.1 ≠ ([] : GoStr) :=
      fun e2 h2 => hk e2 (List.mem_cons_of_mem e h2)
    simp only [List.foldl_cons]
    by_cases hc : e.2.expiration < acc.2
    · have hstep : evictStep acc e = (e.1, e.2.expiration) := by
        simp [evictStep, hc]
      rw [hstep]
      rcases ih (e.1, e.2.expiration) hke hkr with ⟨hm, hle, hall⟩
      refine ⟨?_, ?_, ?_⟩
      · rcases hm with hm | ⟨e2, he2, hm⟩
        · exact Or.inr ⟨e, List.mem_cons_self e rest, hm⟩
        · exact Or.inr ⟨e2, List.mem_cons_of_mem e he2, hm⟩
      · exact le_trans hle (le_of_lt hc)
      · intro e2 he2
        rcases List.mem_cons.mp he2 with h | h
        · subst h; exact hle
        · exact hall e2 h
    · have hstep : evictStep acc e = acc := by
        simp [evictStep, hc, ha]
      rw [hstep]
      rcases ih acc ha hkr with ⟨hm, hle, hall⟩
      refine ⟨?_, hle, ?_⟩
      · rcases hm with hm | ⟨e2, he2, hm⟩
        · exact Or.inl hm
        · exact Or.inr ⟨e2, List.mem_cons_of_mem e he2, hm⟩
      · intro e2 he2
        rcases List.mem_cons.mp he2 with h | h
        · subst h; omega
        · exact hall e2 h

theorem evictChoice_spec {α} (l : List (GoStr × CacheItem α)) (hne : l ≠ [])
    (hk : ∀ e ∈ l, e.1 ≠ ([] : GoStr)) :
    (∃ e ∈ l, evictChoice l = (e.1, e.2.expiration)) ∧
    ∀ e ∈ l, (evictChoice l).2 ≤ e.2.expiration := by
  cases l with
  | nil => exact absurd rfl hne
  | cons e rest =>
    have hke : e.1 ≠ ([] : GoStr) := hk e (List.mem_cons_self e rest)
    have hkr : ∀ e2 ∈ rest, e2.1 ≠ ([] : GoStr) :=
      fun e2 h2 => hk e2 (List.mem_cons_of_mem e h2)
    have hstep : evictStep ([], 0) e = (e.1, e.2.expiration) := by
      simp [evictStep]
    have hfold : evictChoice (e :: rest) =
        rest.foldl evictStep (e.1, e.2.expiration) := by
      simp [evictChoice, List.foldl_cons, hstep]
    rcases evictFold_spec rest (e.1, e.2.expiration) hke hkr with ⟨hm, hle, hall⟩
    constructor
    · rcases hm with hm | ⟨e2, he2, hm⟩
      · exact ⟨e, List.mem_cons_self e rest, by rw [hfold, hm]⟩
      · exact ⟨e2, List.mem_cons_of_mem e he2, by rw [hfold, hm]⟩
    · intro e2 he2
      rw [hfold]
      rcases List.mem_cons.mp he2 with h | h
      · subst h; exact hle
      · exact hall e2 h

theorem evictChoice_mem_ne {α} (l : List (GoStr × CacheItem α)) (hne : l ≠ [])
    (hk : ∀ e ∈ l, e.1 ≠ ([] : GoStr)) :
    (evictChoice l).1 ∈ l.map Prod.fst ∧ (evictChoice l).1 ≠ [] := by
  rcases (evictChoice_spec l hne hk).1 with ⟨e, he, hc⟩
  rw [hc]
  exact ⟨List.mem_map.mpr ⟨e, he, rfl⟩, hk e he⟩

theorem evictOldest_length {α} (l : List (GoStr × CacheItem α)) (hne : l ≠ [])
    (hk : ∀ e ∈ l, e.1 ≠ ([] : GoStr)) :
    (evictOldest l).length + 1 = l.length := by
  rcases evictChoice_mem_ne l hne hk with ⟨hmem, hn⟩
  rw [evictOldest, if_pos hn]
  exact removeKey_length_mem _ _ hmem

theorem mem_keys_remove {α} (k e1 : GoStr) (l : List (GoStr × CacheItem α))
    (hm : k ∈ l.map Prod.fst) (hne : k ≠ e1) :
    k ∈ (removeKey e1 l).map Prod.fst := by
  induction l with
  | nil => simp at hm
  | cons e rest ih =>
    obtain ⟨k2, it2⟩ := e
    simp only [List.map_cons, List.mem_cons] at hm
    by_cases he : k2 = e1
    · simp only [removeKey, he, if_pos rfl]
      rcases hm with hm | hm
      · exact absurd (hm.trans he) hne
      · exact hm
    · simp only [removeKey, he, if_false, List.map_cons, List.mem_cons]
      rcases hm with hm | hm
      · exact Or.inl hm
      · exact Or.inr (ih hm)

theorem lookup_insert_ne {α} (k2 k : GoStr) (it : CacheItem α)
    (l : List (GoStr × CacheItem α)) (h : k2 ≠ k) :
    lookupKey k2 (insertItem k it l) = lookupKey k2 l := by
  induction l with
  | nil => simp [insertItem, lookupKey, Ne.symm h]
  | cons e rest ih =>
    obtain ⟨k3, it3⟩ := e
    by_cases he : k3 = k
    · subst he
      simp only [insertItem, if_pos rfl, lookupKey, Ne.symm h, if_false]
    · simp only [insertItem, he, if_false, lookupKey]
      by_cases h3 : k3 = k2
      · simp [h3]
      · simp [h3, ih]

theorem lookup_remove_ne {α} (k2 e1 : GoStr)
    (l : List (GoStr × CacheItem α)) (h : k2 ≠ e1) :
    lookupKey k2 (removeKey e1 l) = lookupKey k2 l := by
  induction l with
  | nil => simp [removeKey]
  | cons e rest ih =>
    obtain ⟨k3, it3⟩ := e
    by_cases he : k3 = e1
    · subst he
      have hrm : removeKey k3 ((k3, it3) :: rest) = rest := by simp [removeKey]
      rw [hrm]
      simp only [lookupKey]
      rw [if_neg (fun h3 => h h3.symm)]
    · simp only [removeKey, he, if_false, lookupKey]
      by_cases h3 : k3 = k2
      · simp [h3]
      · simp [h3, ih]

/-! ### Key-generation helper lemmas -/

theorem hexDigit_ne_x (n : Nat) : hexDigit n ≠ 'x' := by
  unfold hexDigit
  by_cases h : n < 16
  · interval_cases n <;> decide
  · rw [List.getD_eq_getElem?_getD, List.getElem?_eq_none (by simp; omega)]
    decide

theorem isPre0x_hexChars_cons (rest : GoStr) (b : Nat) (bs : List Nat) :
    (('0' :: 'x' :: rest).isPrefixOf (hexChars (b :: bs))) = false := by
  show (('0' :: 'x' :: rest).isPrefixOf
    (hexDigit (b / 16) :: hexDigit (b % 16) :: hexChars bs)) = false
  show (('0' == hexDigit (b / 16)) &&
    (('x' == hexDigit (b % 16)) && (rest.isPrefixOf (hexChars bs)))) = false
  have hx : ('x' == hexDigit (b % 16)) = false :=
    beq_eq_false_iff_ne.mpr fun h => hexDigit_ne_x (b % 16) h.symm
  rw [hx]
  simp

theorem no_addr_match (p rest : GoStr) (h8 : Hash8) :
    ((p ++ '0' :: 'x' :: rest).isPrefixOf
      (p ++ hexChars (digestBytes h8))) = false := by
  induction p with
  | nil => exact isPre0x_hexChars_cons rest _ _
  | cons c cs ih =>
    show ((c == c) &&
      ((cs ++ '0' :: 'x' :: rest).isPrefixOf
        (cs ++ hexChars (digestBytes h8)))) = false
    rw [beq_self_eq_true]
    simpa using ih

theorem keyStart_fold_noop {α} (pre : GoStr) (ks : List GoStr)
    (h : ∀ k ∈ ks, pre.isPrefixOf k = false) (acc : MemCache α × Nat) :
    ks.foldl
      (fun acc k => if pre.isPrefixOf k then (acc.1.delete k, acc.2 + 1) else acc)
      acc = acc := by
  induction ks generalizing acc with
  | nil => rfl
  | cons k rest ih =>
    have hk : pre.isPrefixOf k = false := h k (List.mem_cons_self k rest)
    simp only [List.foldl_cons, hk, Bool.false_eq_true, if_false]
    exact ih (fun k2 h2 => h k2 (List.mem_cons_of_mem k h2)) acc

theorem invalidateByKeyStart_noop {α} (c : MemCache α) (pre : GoStr)
    (h : ∀ k ∈ c.keys, pre.isPrefixOf k = false) :
    invalidateByKeyStart c pre = (c, 0) :=
  keyStart_fold_noop pre c.keys h (c, 0)

/-! ### Scanner helper lemmas -/

theorem seqScanTxs_ok (addr : GoStr) (txs : List Tx) :
    ∀ acc : List Tx, (acc ++ txs.filter (txMatches addr)).length < 10000 →
      seqScanTxs addr txs acc = .ok (acc ++ txs.filter (txMatches addr)) := by
  induction txs with
  | nil => intro acc h; simp [seqScanTxs]
  | cons tx rest ih =>
    intro acc h
    by_cases hm : txMatches addr tx
    · rw [List.filter_cons_of_pos hm] at h ⊢
      have hlen : ¬ (10000 ≤ (acc ++ [tx]).length) := by
        simp only [List.length_append, List.length_cons] at h ⊢
        simp
        omega
      simp only [seqScanTxs, hm, if_true, hlen, if_false]
      have ih2 := ih (acc ++ [tx]) (by simpa [List.append_assoc] using h)
      rw [ih2]
      simp [List.append_assoc]
    · rw [List.filter_cons_of_neg hm] at h ⊢
      simp only [seqScanTxs, hm, Bool.false_eq_true, if_false]
      exact ih acc h

theorem seqScanBlocks_ok (ch : Chain) (addr : GoStr) (txsOf : Int → List Tx)
    (blocks : List Int) :
    ∀ acc : List Tx,
      (∀ b ∈ blocks, ch.blockByNumber b = .ok (txsOf b)) →
      (acc ++ blocks.flatMap fun b => (txsOf b).filter (txMatches addr)).length < 10000 →
      seqScanBlocks ch addr blocks acc =
        .ok (acc ++ blocks.flatMap fun b => (txsOf b).filter (txMatches addr)) := by
  induction blocks with
  | nil => intro acc _ h; simp [seqScanBlocks]
  | cons b rest ih =>
    intro acc hok h
    have hb : ch.blockByNumber b = .ok (txsOf b) := hok b (List.mem_cons_self b rest)
    rw [List.flatMap_cons] at h
    have h1 : (acc ++ (txsOf b).filter (txMatches addr)).length < 10000 := by
      simp only [List.length_append] at h ⊢
      omega
    simp only [seqScanBlocks, hb]
    rw [seqScanTxs_ok addr (txsOf b) acc h1]
    have ih2 := ih (acc ++ (txsOf b).filter (txMatches addr))
      (fun b2 h2 => hok b2 (List.mem_cons_of_mem b h2))
      (by simpa [List.append_assoc] using h)
    dsimp only
    rw [ih2, List.flatMap_cons, List.append_assoc]

theorem concCollect_ok (ch : Chain) (addr : GoStr) (txsOf : Int → List Tx)
    (blocks : List Int) :
    ∀ acc : List Tx,
      (∀ b ∈ blocks, ch.blockByNumber b = .ok (txsOf b)) →
      (acc ++ blocks.flatMap fun b => (txsOf b).filter (txMatches addr)).length ≤ 10000 →
      concCollect ch addr blocks acc =
        .ok (acc ++ blocks.flatMap fun b => (txsOf b).filter (txMatches addr)) := by
  induction blocks with
  | nil => intro acc _ h; simp [concCollect]
  | cons b rest ih =>
    intro acc hok h
    have hb : ch.blockByNumber b = .ok (txsOf b) := hok b (List.mem_cons_self b rest)
    rw [List.flatMap_cons] at h
    have h1 : ¬ (10000 < (acc ++ (txsOf b).filter (txMatches addr)).length) := by
      simp only [List.length_append] at h ⊢
      omega
    simp only [concCollect, hb, h1, if_false]
    have ih2 := ih (acc ++ (txsOf b).filter (txMatches addr))
      (fun b2 h2 => hok b2 (List.mem_cons_of_mem b h2))
      (by simpa [List.append_assoc] using h)
    rw [ih2, List.flatMap_cons, List.append_assoc]

theorem seqScanTxs_replicate (addr : GoStr) (tx : Tx)
    (hm : txMatches addr tx = true) :
    ∀ (n : Nat) (acc : List Tx), acc.length < 10000 →
      seqScanTxs addr (List.replicate n tx) acc =
        if acc.length + n < 10000 then .ok (acc ++ List.replicate n tx)
        else .error .resultTooLarge := by
  intro n
  induction n with
  | zero => intro acc h; simp [seqScanTxs, h]
  | succ n ih =>
    intro acc h
    rw [List.replicate_succ]
    by_cases hfull : 10000 ≤ (acc ++ [tx]).length
    · have : ¬ (acc.length + (n + 1) < 10000) := by
        simp only [List.length_append, List.length_cons, List.length_nil] at hfull ⊢
        omega
      simp only [seqScanTxs, hm, if_true, hfull, this, if_false]
    · have h2 : (acc ++ [tx]).length < 10000 := by omega
      simp only [seqScanTxs, hm, if_true, hfull, if_false]
      rw [ih (acc ++ [tx]) h2]
      simp only [List.length_append, List.length_cons, List.length_nil]
      by_cases hc : acc.length + 1 + n < 10000
      · rw [if_pos (by omega), if_pos (by omega)]
        simp [List.append_assoc, List.replicate_succ]
      · rw [if_neg (by omega), if_neg (by omega)]

theorem filter_replicate_of_pos (p : Tx → Bool) (tx : Tx) (hp : p tx = true) :
    ∀ n, (List.replicate n tx).filter p = List.replicate n tx := by
  intro n
  induction n with
  | zero => rfl
  | succ n ih => rw [List.replicate_succ, List.filter_cons_of_pos hp, ih]

theorem default_window_in_cap (latest : Nat) (hlt : latest < 2 ^ 64) :
    ¬ (1000 < int64OfUInt64 (latest % 2 ^ 64) -
        int64OfUInt64 ((latest + 2 ^ 64 - 100) % 2 ^ 64)) := by
  unfold int64OfUInt64
  by_cases h100 : 100 ≤ latest
  · have e1 : (latest + 2 ^ 64 - 100) % 2 ^ 64 = latest - 100 := by omega
    have e2 : latest % 2 ^ 64 = latest := by omega
    rw [e1, e2]
    split <;> split <;> push_cast <;> omega
  · have e1 : (latest + 2 ^ 64 - 100) % 2 ^ 64 = latest + 2 ^ 64 - 100 := by omega
    have e2 : latest % 2 ^ 64 = latest := by omega
    rw [e1, e2]
    split <;> split <;> push_cast <;> omega

/-- Claim C2 (code bug): `InvalidateByAddress` deletes keys starting with
`"balance:" + address` (and `logs:`, `transactions:`), but every key the
engine creates has the form `prefix + ":" + hex(sha256(json(params)))` — the
character after the colon-prefix is a hex digit, never the `x` of `0x…` — so
on a cache populated under the engine's key scheme the address-scoped
invalidation deletes nothing and returns 0 instead of the count of that
address's entries. -/
theorem c2_invalidateByAddress_misses_generated_keys (tail : GoStr)
    (c : MemCache CVal)
    (hkeys : ∀ k ∈ c.keys,
      (∃ b, k = balanceKey ('0' :: 'x' :: tail) b) ∨
      (∃ f t, k = logsKey ('0' :: 'x' :: tail) f t) ∨
      (∃ f t, k = txKey ('0' :: 'x' :: tail) f t)) :
    invalidateByAddress c ('0' :: 'x' :: tail) = (c, 0) := by
  have hb : ∀ k ∈ c.keys,
      (("balance:".data ++ ('0' :: 'x' :: tail)).isPrefixOf k) = false := by
    intro k hk
    rcases hkeys k hk with ⟨b, rfl⟩ | ⟨f, t, rfl⟩ | ⟨f, t, rfl⟩
    · exact no_addr_match "balance:".data tail _
    · rfl
    · rfl
  have hl : ∀ k ∈ c.keys,
      (("logs:".data ++ ('0' :: 'x' :: tail)).isPrefixOf k) = false := by
    intro k hk
    rcases hkeys k hk with ⟨b, rfl⟩ | ⟨f, t, rfl⟩ | ⟨f, t, rfl⟩
    · rfl
    · exact no_addr_match "logs:".data tail _
    · rfl
  have ht : ∀ k ∈ c.keys,
      (("transactions:".data ++ ('0' :: 'x' :: tail)).isPrefixOf k) = false := by
    intro k hk
    rcases hkeys k hk with ⟨b, rfl⟩ | ⟨f, t, rfl⟩ | ⟨f, t, rfl⟩
    · rfl
    · rfl
    · exact no_addr_match "transactions:".data tail _
  have e1 := invalidateByKeyStart_noop c _ hb
  have e2 := invalidateByKeyStart_noop c _ hl
  have e3 := invalidateByKeyStart_noop c _ ht
  simp only [invalidateByAddress]
  rw [e1]
  dsimp only
  rw [e2]
  dsimp only
  rw [e3]
  rfl

/-- Witness for C2: a cache holding exactly the engine's balance, logs and
transactions entries for one address; invalidating that address deletes
nothing and reports 0, although three entries for it are present. -/
theorem c2_invalidateByAddress_misses_generated_keys_witness :
    invalidateByAddress
      (⟨[(balanceKey "0x742d35Cc6634C0532925a3b844Bc454e4438f44e".data none, ⟨.bal 1, 9⟩),
         (logsKey "0x742d35Cc6634C0532925a3b844Bc454e4438f44e".data 100 200, ⟨.logs [7], 9⟩),
         (txKey "0x742d35Cc6634C0532925a3b844Bc454e4438f44e".data 100 200, ⟨.txs [], 9⟩)],
        100, 10⟩ : MemCache CVal)
      "0x742d35Cc6634C0532925a3b844Bc454e4438f44e".data =
      (⟨[(balanceKey "0x742d35Cc6634C0532925a3b844Bc454e4438f44e".data none, ⟨.bal 1, 9⟩),
         (logsKey "0x742d35Cc6634C0532925a3b844Bc454e4438f44e".data 100 200, ⟨.logs [7], 9⟩),
         (txKey "0x742d35Cc6634C0532925a3b844Bc454e4438f44e".data 100 200, ⟨.txs [], 9⟩)],
        100, 10⟩, 0) ∧
    (⟨[(balanceKey "0x742d35Cc6634C0532925a3b844Bc454e4438f44e".data none, ⟨.bal 1, 9⟩),
       (logsKey "0x742d35Cc6634C0532925a3b844Bc454e4438f44e".data 100 200, ⟨.logs [7], 9⟩),
       (txKey "0x742d35Cc6634C0532925a3b844Bc454e4438f44e".data 100 200, ⟨.txs [], 9⟩)],
      100, 10⟩ : MemCache CVal).size = 3 := by
  constructor
  · refine c2_invalidateByAddress_misses_generated_keys
      "742d35Cc6634C0532925a3b844Bc454e4438f44e".data _ ?_
    intro k hk
    simp only [MemCache.keys, List.map, List.mem_cons, List.not_mem_nil,
      or_false] at hk
    rcases hk with rfl | rfl | rfl
    · exact Or.inl ⟨none, rfl⟩
    · exact Or.inr (Or.inl ⟨100, 200, rfl⟩)
    · exact Or.inr (Or.inr ⟨100, 200, rfl⟩)
  · rfl

/-- Claim C3 (code bug): on a TRANSACTIONS query with an absent bound the
engine resolves the default window `[head - 100, head]` into local
variables, but the feeder iterates the original nil `query.FromBlock /
query.ToBlock` pointers, dereferencing nil and panicking instead of
delegating that window to the scanner: on a cache miss the nil-bound branch
crashes for every chain head. -/
theorem c3_default_window_feeder_crashes (ch : Chain) (c : MemCache CVal)
    (now : Nat) (q : Query) (order : List Int) (latest : Nat)
    (hnil : q.fromBlock = none)
    (hbn : ch.blockNumberRes = .ok latest) (hlt : latest < 2 ^ 64)
    (hmiss : c.get now
      (txKey q.address (int64OfUInt64 ((latest + 2 ^ 64 - 100) % 2 ^ 64))
        (int64OfUInt64 (latest % 2 ^ 64))) = none) :
    getTransactionsConcurrent ch c now q order = (.crash, c) := by
  have hcap := default_window_in_cap latest hlt
  simp only [getTransactionsConcurrent, hnil, hbn]
  rw [if_neg hcap, hmiss]

/-- Witness for C3: a concrete boundless TRANSACTIONS query against a chain
at head 5000 with an empty cache crashes instead of scanning
`[4900, 5000]`. -/
theorem c3_default_window_feeder_crashes_witness :
    getTransactionsConcurrent
      { blockNumberRes := .ok 5000, latestByNil := .ok 5000,
        blockByNumber := fun _ => .ok [], filterLogs := fun _ _ _ => .ok [] }
      ⟨[], 10, 7⟩ 0
      { type := "SELECT".data, method := "TRANSACTIONS".data,
        address := "a".data, fromBlock := none, toBlock := none } [] =
      (.crash, ⟨[], 10, 7⟩) :=
  c3_default_window_feeder_crashes _ _ _ _ _ 5000 rfl rfl (by decide) rfl

/-- Counterexample to C4 as stated: on a validated one-block range whose
block holds exactly 10000 matching transactions, the sequential scanner
fails with `ResultTooLarge` (it aborts at `len >= 10000`) while the
concurrent collector succeeds with all 10000 matches (it aborts only at
`len > 10000`), so the two scans do not yield the same set. -/
theorem c4_seq_conc_disagree_at_cap :
    getTransactions
      { blockNumberRes := .ok 0, latestByNil := .ok 0,
        blockByNumber := fun b =>
          if b = 5 then
            .ok (List.replicate 10000 ⟨some "a".data, some "a".data, 0⟩)
          else .ok [],
        filterLogs := fun _ _ _ => .ok [] }
      { type := "SELECT".data, method := "TRANSACTIONS".data,
        address := "a".data, fromBlock := some 5, toBlock := some 5 } =
      .error .resultTooLarge ∧
    concCollect
      { blockNumberRes := .ok 0, latestByNil := .ok 0,
        blockByNumber := fun b =>
          if b = 5 then
            .ok (List.replicate 10000 ⟨some "a".data, some "a".data, 0⟩)
          else .ok [],
        filterLogs := fun _ _ _ => .ok [] }
      "a".data (intRange 5 5) [] =
      .ok (List.replicate 10000 ⟨some "a".data, some "a".data, 0⟩) := by
  have hm : txMatches "a".data ⟨some "a".data, some "a".data, 0⟩ = true := by
    decide
  have hrange : intRange 5 5 = [5] := by decide
  constructor
  · dsimp only [getTransactions, Option.getD_some]
    rw [if_neg (by decide), hrange]
    simp only [seqScanBlocks]
    rw [if_true]
    dsimp only
    rw [seqScanTxs_replicate "a".data _ hm 10000 [] (by decide)]
    rw [if_neg (by decide)]
  · rw [hrange]
    simp only [concCollect]
    rw [if_true]
    dsimp only
    rw [List.nil_append, filter_replicate_of_pos _ _ hm]
    rw [if_neg (by rw [List.length_replicate]; decide)]

/-- Claim C4, amended (corrected): for every validated block range whose
matching-transaction total stays below 10000 and whose per-block fetches all
succeed, the sequential scan and the concurrent collector — under any
arrival order of per-block results, i.e. any worker count ≥ 1 — both succeed
and return permutations of each other (the same set of matching
transactions); at exactly 10000 matches the sequential scan fails with
`ResultTooLarge` while the concurrent scan succeeds. -/
theorem c4_scan_same_set_below_cap (ch : Chain) (q : Query) (f t : Int)
    (order : List Int) (txsOf : Int → List Tx)
    (hf : q.fromBlock = some f) (ht : q.toBlock = some t)
    (hcap : t - f ≤ 1000)
    (hok : ∀ b ∈ intRange f t, ch.blockByNumber b = .ok (txsOf b))
    (hperm : order.Perm (intRange f t))
    (hsize : ((intRange f t).flatMap fun b =>
      (txsOf b).filter (txMatches q.address)).length < 10000) :
    getTransactions ch q =
      .ok ((intRange f t).flatMap fun b =>
        (txsOf b).filter (txMatches q.address)) ∧
    concCollect ch q.address order [] =
      .ok (order.flatMap fun b => (txsOf b).filter (txMatches q.address)) ∧
    (order.flatMap fun b => (txsOf b).filter (txMatches q.address)).Perm
      ((intRange f t).flatMap fun b =>
        (txsOf b).filter (txMatches q.address)) := by
  have hpf : (order.flatMap fun b =>
      (txsOf b).filter (txMatches q.address)).Perm
      ((intRange f t).flatMap fun b =>
        (txsOf b).filter (txMatches q.address)) :=
    hperm.flatMap_right _
  refine ⟨?_, ?_, hpf⟩
  · have hnr : ¬ (1000 < t - f) := by omega
    simp only [getTransactions, hf, ht, Option.getD_some, hnr, if_false]
    exact seqScanBlocks_ok ch q.address txsOf (intRange f t) [] hok
      (by simpa using hsize)
  · have hok2 : ∀ b ∈ order, ch.blockByNumber b = .ok (txsOf b) :=
      fun b hb => hok b (hperm.mem_iff.mp hb)
    have hlen : ((order.flatMap fun b =>
        (txsOf b).filter (txMatches q.address))).length ≤ 10000 := by
      rw [hpf.length_eq]
      omega
    exact concCollect_ok ch q.address txsOf order [] hok2 (by simpa using hlen)

/-- Witness for the amended C4: a two-block range scanned in reversed
arrival order yields a permutation of the sequential result. -/
theorem c4_scan_same_set_below_cap_witness :
    getTransactions
      { blockNumberRes := .ok 0, latestByNil := .ok 0,
        blockByNumber := fun b =>
          if b = 1 then .ok [⟨some "a".data, some "z".data, 1⟩, ⟨none, some "a".data, 2⟩]
          else if b = 2 then .ok [⟨some "q".data, some "a".data, 3⟩]
          else .ok [],
        filterLogs := fun _ _ _ => .ok [] }
      { type := "SELECT".data, method := "TRANSACTIONS".data,
        address := "a".data, fromBlock := some 1, toBlock := some 2 } =
      .ok ((intRange 1 2).flatMap fun b =>
        ((fun b => if b = 1 then [⟨some "a".data, some "z".data, 1⟩, ⟨none, some "a".data, 2⟩]
          else if b = 2 then [⟨some "q".data, some "a".data, 3⟩] else []) b).filter
            (txMatches "a".data)) ∧
    concCollect
      { blockNumberRes := .ok 0, latestByNil := .ok 0,
        blockByNumber := fun b =>
          if b = 1 then .ok [⟨some "a".data, some "z".data, 1⟩, ⟨none, some "a".data, 2⟩]
          else if b = 2 then .ok [⟨some "q".data, some "a".data, 3⟩]
          else .ok [],
        filterLogs := fun _ _ _ => .ok [] }
      "a".data [2, 1] [] =
      .ok (([2, 1] : List Int).flatMap fun b =>
        ((fun b => if b = 1 then [⟨some "a".data, some "z".data, 1⟩, ⟨none, some "a".data, 2⟩]
          else if b = 2 then [⟨some "q".data, some "a".data, 3⟩] else []) b).filter
            (txMatches "a".data)) ∧
    (([2, 1] : List Int).flatMap fun b =>
      ((fun b => if b = 1 then [⟨some "a".data, some "z".data, 1⟩, ⟨none, some "a".data, 2⟩]
        else if b = 2 then [⟨some "q".data, some "a".data, 3⟩] else []) b).filter
          (txMatches "a".data)).Perm
      ((intRange 1 2).flatMap fun b =>
        ((fun b => if b = 1 then [⟨some "a".data, some "z".data, 1⟩, ⟨none, some "a".data, 2⟩]
          else if b = 2 then [⟨some "q".data, some "a".data, 3⟩] else []) b).filter
            (txMatches "a".data)) :=
  c4_scan_same_set_below_cap
    { blockNumberRes := .ok 0, latestByNil := .ok 0,
      blockByNumber := fun b =>
        if b = 1 then .ok [⟨some "a".data, some "z".data, 1⟩, ⟨none, some "a".data, 2⟩]
        else if b = 2 then .ok [⟨some "q".data, some "a".data, 3⟩]
        else .ok [],
      filterLogs := fun _ _ _ => .ok [] }
    { type := "SELECT".data, method := "TRANSACTIONS".data,
      address := "a".data, fromBlock := some 1, toBlock := some 2 }
    1 2 [2, 1]
    (fun b => if b = 1 then [⟨some "a".data, some "z".data, 1⟩, ⟨none, some "a".data, 2⟩]
      else if b = 2 then [⟨some "q".data, some "a".data, 3⟩] else [])
    rfl rfl (by decide) (by decide) (by decide) (by decide)

/-- Counterexample to C7 as stated: an in-memory cache at capacity
(`maxItems = 1`) holding one entry under the empty-string key; `Set` must
evict exactly one entry first, but `evictOldest` uses the empty string as
its not-found sentinel, skips the deletion, and the insert leaves the map at
2 > `maxItems` entries. -/
theorem c7_empty_key_defeats_capacity :
    ((⟨[(([] : GoStr), ⟨0, 5⟩)], 1, 10⟩ : MemCache Nat).size =
      (⟨[(([] : GoStr), ⟨0, 5⟩)], 1, 10⟩ : MemCache Nat).maxItems) ∧
    ((⟨[(([] : GoStr), ⟨0, 5⟩)], 1, 10⟩ : MemCache Nat).set 0 "x".data 0 1).size =
      (⟨[(([] : GoStr), ⟨0, 5⟩)], 1, 10⟩ : MemCache Nat).maxItems + 1 :=
  ⟨rfl, rfl⟩

/-- Claim C7, amended (corrected): for every in-memory cache with
`maxItems ≥ 1` none of whose stored keys is the empty string (the eviction
scan's sentinel), `Set` preserves `Size() ≤ maxItems`: at or above capacity
exactly one entry is evicted before the insert. -/
theorem c7_capacity_preserved_nonempty_keys {α} (c : MemCache α) (now : Nat)
    (k : GoStr) (v : α) (ttl : Nat)
    (hmax : 1 ≤ c.maxItems) (hsize : c.size ≤ c.maxItems)
    (hkeys : ∀ e ∈ c.items, e.1 ≠ ([] : GoStr)) :
    (c.set now k v ttl).size ≤ c.maxItems := by
  unfold MemCache.set MemCache.size at *
  by_cases hful : c.maxItems ≤ c.items.length
  · have hlen : c.items.length = c.maxItems := le_antisymm hsize hful
    have hne : c.items ≠ [] := by
      intro e
      rw [e] at hlen
      simp at hlen
      omega
    have hev := evictOldest_length c.items hne hkeys
    simp only [if_pos hful]
    rw [insertItem_length]
    split <;> omega
  · simp only [if_neg hful]
    rw [insertItem_length]
    split <;> omega

/-- Witness for the amended C7: inserting a second entry into a full
one-entry cache with a nonempty key keeps the size at 1. -/
theorem c7_capacity_preserved_nonempty_keys_witness :
    ((⟨[("a".data, ⟨5, 9⟩)], 1, 10⟩ : MemCache Nat).set 0 "b".data 1 2).size ≤ 1 :=
  c7_capacity_preserved_nonempty_keys
    (⟨[("a".data, ⟨5, 9⟩)], 1, 10⟩ : MemCache Nat) 0 "b".data 1 2
    (by decide) (by decide) (by decide)

/-- Claim C8 (confirmed): on a LOGS query with both bounds in range and a
cache miss, a successful filter fetch of more than 10000 records fails with
`ResultTooLarge` and leaves the cache unchanged; a fetch of at most 10000
records is returned and cached under the `(logs, address, from, to)` key. -/
theorem c8_logs_result_cap_and_caching (ch : Chain) (c : MemCache CVal)
    (now : Nat) (q : Query) (f t : Int) (logs : List LogRec)
    (hf : q.fromBlock = some f) (ht : q.toBlock = some t)
    (hcap : t - f ≤ 10000)
    (hmiss : c.get now (logsKey q.address f t) = none)
    (hfetch : ch.filterLogs q.address f t = .ok logs) :
    (10000 < logs.length → getLogs ch c now q = (.error .resultTooLarge, c)) ∧
    (logs.length ≤ 10000 →
      getLogs ch c now q =
        (.ok logs, c.set now (logsKey q.address f t) (.logs logs) 0)) := by
  have hnr : ¬ (10000 < t - f) := by omega
  constructor
  · intro hbig
    simp [getLogs, hf, ht, hnr, hmiss, hfetch, hbig]
  · intro hsmall
    have : ¬ (10000 < logs.length) := by omega
    simp [getLogs, hf, ht, hnr, hmiss, hfetch, this]

/-- Witness for C8: a two-record fetch on a miss is returned and cached. -/
theorem c8_logs_result_cap_and_caching_witness :
    getLogs
      { blockNumberRes := .ok 0, latestByNil := .ok 0,
        blockByNumber := fun _ => .ok [], filterLogs := fun _ _ _ => .ok [5, 6] }
      ⟨[], 10, 7⟩ 0
      { type := "SELECT".data, method := "LOGS".data, address := "a".data,
        fromBlock := some 3, toBlock := some 7 } =
      (.ok [5, 6],
        (⟨[], 10, 7⟩ : MemCache CVal).set 0 (logsKey "a".data 3 7) (.logs [5, 6]) 0) :=
  (c8_logs_result_cap_and_caching
    { blockNumberRes := .ok 0, latestByNil := .ok 0,
      blockByNumber := fun _ => .ok [], filterLogs := fun _ _ _ => .ok [5, 6] }
    (⟨[], 10, 7⟩ : MemCache CVal) 0
    { type := "SELECT".data, method := "LOGS".data, address := "a".data,
      fromBlock := some 3, toBlock := some 7 }
    3 7 [5, 6] rfl rfl (by decide) rfl rfl).2 (by decide)

set_option maxRecDepth 100000 in
/-- Counterexample to C9 as stated: `GenerateKey` hashes the parameter slice
in call order, so the same values in a different order give different keys —
the JSON arrays `[1,2]` and `[2,1]` hash differently. -/
theorem c9_param_order_changes_key :
    generateKey "p".data [.num 1, .num 2] ≠
      generateKey "p".data [.num 2, .num 1] := by
  decide

/-- Claim C9, amended (corrected): key construction is a pure, stable
function of the prefix and the ordered parameter list — two calls with the
same prefix and the same parameters in the same order always produce the
same key — but the same parameter values in a different call order generally
produce different keys. -/
theorem c9_generateKey_deterministic (p : GoStr) (ps qs : List JVal)
    (h : ps = qs) : generateKey p ps = generateKey p qs := by
  rw [h]

/-- Witness for the amended C9: two identical logical LOGS lookups collide
on cache identity. -/
theorem c9_generateKey_deterministic_witness :
    generateKey "logs".data [.str "a".data, .num 1, .num 2] =
      generateKey "logs".data [.str "a".data, .num 1, .num 2] :=
  c9_generateKey_deterministic "logs".data _ _ rfl

/-- Counterexample to C10 as stated: at capacity with the key `k` present,
if the map also holds an entry under the empty-string key that expires
first, `Set(k, …)` does not evict the nearest-expiration entry at all — the
sentinel scan either skips deletion or removes a later entry — so the size
stays at `maxItems` and the nearest-expiration entry survives. -/
theorem c10_empty_key_defeats_eviction :
    (((⟨[(([] : GoStr), ⟨0, 1⟩), ("k".data, ⟨1, 5⟩)], 2, 10⟩ : MemCache Nat).set
        0 "k".data 7 3).size = 2) ∧
    lookupKey ([] : GoStr)
      ((⟨[(([] : GoStr), ⟨0, 1⟩), ("k".data, ⟨1, 5⟩)], 2, 10⟩ : MemCache Nat).set
        0 "k".data 7 3).items = some ⟨0, 1⟩ :=
  ⟨rfl, rfl⟩

/-- Claim C10, amended (corrected): for every in-memory cache at capacity
none of whose stored keys is the empty string, overwriting a present key `k`
still evicts the minimal-expiration entry first — possibly an entry other
than `k`, in which case the size drops to `maxItems - 1` — and entries other
than `k` and the evicted one are unchanged. -/
theorem c10_overwrite_at_capacity_evicts_min {α} (c : MemCache α) (now : Nat)
    (k : GoStr) (v : α) (ttl : Nat)
    (hcap : c.size = c.maxItems) (hmem : k ∈ c.keys)
    (hkeys : ∀ e ∈ c.items, e.1 ≠ ([] : GoStr)) :
    ∃ e ∈ c.items,
      evictChoice c.items = (e.1, e.2.expiration) ∧
      (∀ e2 ∈ c.items, e.2.expiration ≤ e2.2.expiration) ∧
      (c.set now k v ttl).items =
        insertItem k ⟨v, now + (if ttl = 0 then c.defaultTTL else ttl)⟩
          (removeKey e.1 c.items) ∧
      (e.1 ≠ k → (c.set now k v ttl).size + 1 = c.maxItems) ∧
      (∀ k2, k2 ≠ k → k2 ≠ e.1 →
        lookupKey k2 (c.set now k v ttl).items = lookupKey k2 c.items) := by
  have hne : c.items ≠ [] := by
    intro e
    rw [MemCache.keys, e] at hmem
    simp at hmem
  obtain ⟨⟨e, he, hchoice⟩, hmin⟩ := evictChoice_spec c.items hne hkeys
  have hful : c.maxItems ≤ c.items.length := le_of_eq hcap.symm
  have hkne : e.1 ≠ ([] : GoStr) := hkeys e he
  have hitems : (c.set now k v ttl).items =
      insertItem k ⟨v, now + (if ttl = 0 then c.defaultTTL else ttl)⟩
        (removeKey e.1 c.items) := by
    unfold MemCache.set
    simp only [if_pos hful]
    rw [evictOldest, hchoice, if_pos hkne]
  refine ⟨e, he, hchoice, ?_, hitems, ?_, ?_⟩
  · intro e2 he2
    have := hmin e2 he2
    rw [hchoice] at this
    exact this
  · intro hek
    have hm1 : e.1 ∈ c.items.map Prod.fst := List.mem_map.mpr ⟨e, he, rfl⟩
    have hrm := removeKey_length_mem e.1 c.items hm1
    have hkm : k ∈ (removeKey e.1 c.items).map Prod.fst :=
      mem_keys_remove k e.1 c.items hmem (fun h => hek h.symm)
    rw [MemCache.size, hitems, insertItem_length, if_pos hkm]
    rw [MemCache.size] at hcap
    omega
  · intro k2 hk2k hk2e
    rw [hitems, lookup_insert_ne _ _ _ _ hk2k, lookup_remove_ne _ _ _ hk2e]

/-- Witness for the amended C10: overwriting `k` in a full two-entry cache
evicts the older unrelated entry. -/
theorem c10_overwrite_at_capacity_evicts_min_witness :
    ∃ e ∈ (⟨[("a".data, ⟨0, 1⟩), ("k".data, ⟨1, 5⟩)], 2, 10⟩ : MemCache Nat).items,
      evictChoice (⟨[("a".data, ⟨0, 1⟩), ("k".data, ⟨1, 5⟩)], 2, 10⟩ : MemCache Nat).items =
        (e.1, e.2.expiration) ∧
      (∀ e2 ∈ (⟨[("a".data, ⟨0, 1⟩), ("k".data, ⟨1, 5⟩)], 2, 10⟩ : MemCache Nat).items,
        e.2.expiration ≤ e2.2.expiration) ∧
      ((⟨[("a".data, ⟨0, 1⟩), ("k".data, ⟨1, 5⟩)], 2, 10⟩ : MemCache Nat).set 0 "k".data 7 3).items =
        insertItem "k".data ⟨7, 0 + (if 3 = 0 then 10 else 3)⟩
          (removeKey e.1 (⟨[("a".data, ⟨0, 1⟩), ("k".data, ⟨1, 5⟩)], 2, 10⟩ : MemCache Nat).items) ∧
      (e.1 ≠ "k".data →
        ((⟨[("a".data, ⟨0, 1⟩), ("k".data, ⟨1, 5⟩)], 2, 10⟩ : MemCache Nat).set 0 "k".data 7 3).size + 1 =
          (⟨[("a".data, ⟨0, 1⟩), ("k".data, ⟨1, 5⟩)], 2, 10⟩ : MemCache Nat).maxItems) ∧
      (∀ k2, k2 ≠ "k".data → k2 ≠ e.1 →
        lookupKey k2 ((⟨[("a".data, ⟨0, 1⟩), ("k".data, ⟨1, 5⟩)], 2, 10⟩ : MemCache Nat).set 0 "k".data 7 3).items =
          lookupKey k2 (⟨[("a".data, ⟨0, 1⟩), ("k".data, ⟨1, 5⟩)], 2, 10⟩ : MemCache Nat).items) :=
  c10_overwrite_at_capacity_evicts_min
    (⟨[("a".data, ⟨0, 1⟩), ("k".data, ⟨1, 5⟩)], 2, 10⟩ : MemCache Nat)
    0 "k".data 7 3 rfl (by decide) (by decide)

end EVMQL
